import Mathlib

/-
Verification development for the multi-provider AI fallback manager
(src/services/ai_manager.py).  The Python class `AIManager` keeps, per
provider, a record inside `self.providers` (a dict of dicts) plus five
parallel manager-level dicts (`provider_failures`, `last_error`,
`provider_enabled`, `last_failure_time`, `rate_limits`).  We embed the
provider dicts as an association list of `ProvRec` (preserving insertion
order, which Python dict iteration follows) and each parallel dict as a
total function `String → _` (Python `.get(name, default)` semantics).
Wall-clock time is a `Nat` count of seconds passed explicitly to every
operation that calls `time.time()` / `datetime.now()`.
-/

namespace AIM

/-- Pointwise update of a total map, mirroring a Python dict assignment
`d[k] = v` read back with `.get`. -/
def fupd {β : Type} (f : String → β) (k : String) (v : β) : String → β :=
  fun x => if x = k then v else f x

/-- One inner dict of `self.providers` (the keys created in `__init__`:
`client`, `available`, `priority`, `error_count`, `model`, `max_errors`,
`last_success`, `consecutive_failures`, plus huggingface's `models` and
`current_model_index`).  The `client` object is abstracted to the boolean
`hasClient` (the code only ever tests its truthiness). -/
structure ProvRec where
  hasClient : Bool
  available : Bool
  priority : Nat
  error_count : Nat
  model : String
  max_errors : Nat
  last_success : Option Nat
  consecutive_failures : Nat
  models : List String
  current_model_index : Nat
deriving Repr, DecidableEq

/-- An entry of `self.rate_limits`: `{'reset_time': ..., 'attempts': ...}`,
with the `datetime` reset time modelled as seconds. -/
structure RateInfo where
  reset_time : Nat
  attempts : Nat
deriving Repr, DecidableEq

/-- The whole mutable state of an `AIManager` instance. -/
structure AIState where
  providers : List (String × ProvRec)
  provider_failures : String → Nat
  last_error : String → Option String
  provider_enabled : String → Bool
  last_failure_time : String → Option Nat
  rate_limits : String → Option RateInfo

/-- `self.max_failures = 3`, set once in `__init__` and never mutated. -/
def max_failures : Nat := 3

/-- The key list of `self.providers` (Python dict iteration order). -/
def namesOf (l : List (String × ProvRec)) : List String := l.map Prod.fst

/-- Association-list lookup (`self.providers[name]` when the key exists). -/
def lookupName (l : List (String × ProvRec)) (n : String) : Option ProvRec :=
  match l with
  | [] => none
  | np :: r => if np.1 = n then some np.2 else lookupName r n

/-- Default record used only to totalize lookups; call sites that use it are
guarded in the source by provider membership. -/
def defaultProvRec : ProvRec :=
  { hasClient := false, available := false, priority := 0, error_count := 0,
    model := "", max_errors := 0, last_success := none,
    consecutive_failures := 0, models := [], current_model_index := 0 }

/-- `self.providers[n]` totalized with the default record. -/
def lookupRec (st : AIState) (n : String) : ProvRec :=
  (lookupName st.providers n).getD defaultProvRec

/-- In-place mutation of the inner dict of provider `n`
(`self.providers[n][...] = ...`). -/
def updateProvL (l : List (String × ProvRec)) (n : String) (f : ProvRec → ProvRec) :
    List (String × ProvRec) :=
  l.map fun np => if np.1 = n then (np.1, f np.2) else np

/-- Character-list equality at the head: `needle` begins `hay`. -/
def leadsChars : List Char → List Char → Bool
  | [], _ => true
  | _ :: _, [] => false
  | a :: as, b :: bs => a == b && leadsChars as bs

/-- `needle` occurs contiguously somewhere in `hay`. -/
def hasSubChars (needle : List Char) : List Char → Bool
  | [] => leadsChars needle []
  | c :: rest => leadsChars needle (c :: rest) || hasSubChars needle rest

/-- Python's `needle in hay` on strings. -/
def containsSubstr (needle hay : String) : Bool :=
  hasSubChars needle.data hay.data

/-- Python's `str.lower()` (character-wise case folding; the vocabulary
being matched is plain ASCII). -/
def lowerString (s : String) : String :=
  ⟨s.data.map Char.toLower⟩

/-- The rate-limit vocabulary test of `_handle_provider_failure` and of the
per-provider generators:
`any(k in error.lower() for k in ['429','rate limit','quota','exceeded','too many'])`. -/
def isRateLimitMsg (msg : String) : Bool :=
  ["429", "rate limit", "quota", "exceeded", "too many"].any
    (fun k => containsSubstr k (lowerString msg))

/-- `AIManager._record_success`: zero both consecutive-failure counters,
clear error bookkeeping, force-enable, stamp `last_success`.  Guarded by
`if provider_name in self.providers`. -/
def recordSuccess (st : AIState) (n : String) (now : Nat) : AIState :=
  if n ∈ namesOf st.providers then
    { st with
      providers := updateProvL st.providers n
        (fun p => { p with consecutive_failures := 0, last_success := some now }),
      provider_failures := fupd st.provider_failures n 0,
      last_error := fupd st.last_error n none,
      last_failure_time := fupd st.last_failure_time n none,
      provider_enabled := fupd st.provider_enabled n true }
  else st

/-- `AIManager._record_failure`: bump `provider_failures` and the historical
`error_count`, record the message and the failure time, and disable the
provider when the incremented count reaches `max_failures`. -/
def recordFailure (st : AIState) (n : String) (msg : String) (now : Nat) : AIState :=
  if n ∈ namesOf st.providers then
    { st with
      provider_failures := fupd st.provider_failures n (st.provider_failures n + 1),
      last_error := fupd st.last_error n (some msg),
      providers := updateProvL st.providers n
        (fun p => { p with error_count := p.error_count + 1 }),
      last_failure_time := fupd st.last_failure_time n (some now),
      provider_enabled :=
        if max_failures ≤ st.provider_failures n + 1 then
          fupd st.provider_enabled n false
        else st.provider_enabled }
  else st

/-- Python truthiness of the optional `extended_timeout` argument
(`0` counts as absent). -/
def extGiven : Option Nat → Bool
  | some t => t != 0
  | none => false

/-- The reset window of `_handle_rate_limit`: explicit override divided by
60, else 1440/60/10 minutes from the temporal hints `day`/`hour`/`minute`
in the lowercased error text, else 4. -/
def rlMinutes (extended : Option Nat) (msg : String) : Nat :=
  if extGiven extended then extended.getD 0 / 60
  else if containsSubstr "day" (lowerString msg) then 1440
  else if containsSubstr "hour" (lowerString msg) then 60
  else if containsSubstr "minute" (lowerString msg) then 10
  else 4

/-- The `self.rate_limits[provider_name] = {...}` assignment of
`_handle_rate_limit`: reset time `now + duration`, attempt counter
incremented from `self.rate_limits.get(name, {}).get('attempts', 0)`. -/
def rlRecordState (st : AIState) (n : String) (msg : String)
    (extended : Option Nat) (now : Nat) : AIState :=
  { st with
    rate_limits := fupd st.rate_limits n
      (some { reset_time := now + rlMinutes extended msg * 60,
              attempts := ((st.rate_limits n).map RateInfo.attempts).getD 0 + 1 }) }

/-- `AIManager._handle_rate_limit`: record the `rate_limits` entry, record
the failure through `_record_failure`, then force `enabled=False` and stamp
`last_failure_time`. -/
def handleRateLimit (st : AIState) (n : String) (msg : String)
    (extended : Option Nat) (now : Nat) : AIState :=
  let st2 := recordFailure (rlRecordState st n msg extended now) n msg now
  { st2 with
    provider_enabled := fupd st2.provider_enabled n false,
    last_failure_time := fupd st2.last_failure_time n (some now) }

/-
Cooldown reconciliation.  Both `get_best_provider` and
`_get_next_available_provider` guard their re-admission branches on
`provider.get('last_failure_time')`.  Every write of a failure time in the
source goes to the manager-level dict `self.last_failure_time[...]`; no
statement ever stores a `'last_failure_time'` key inside a provider's inner
dict, whose key set is fixed in `__init__`.  The inner-dict lookup is
therefore always `None`, which we embed as the constant below.
-/

/-- `provider.get('last_failure_time')` on an inner provider dict. -/
def provGetLastFailureTime (_p : ProvRec) : Option Nat := none

/-- Python truthiness of an optional timestamp (`0.0` would be falsy). -/
def timeTruthy : Option Nat → Bool
  | none => false
  | some v => v != 0

/-- The re-admission assignments shared by the reconciliation branches:
`available=True`, `enabled=True`, failures reset, error and failure time
cleared.  (The trailing `elif HAS_...` chain of `get_best_provider` only
re-assigns `available=True`, which is already done here.) -/
def reenableProvider (s : AIState) (n : String) : AIState :=
  { s with
    providers := updateProvL s.providers n (fun p => { p with available := true }),
    provider_enabled := fupd s.provider_enabled n true,
    provider_failures := fupd s.provider_failures n 0,
    last_error := fupd s.last_error n none,
    last_failure_time := fupd s.last_failure_time n none }

/-- One iteration of the reconciliation loop at the top of
`get_best_provider` (an `if not available ... / elif not enabled ...`
chain, both gated on the inner-dict `last_failure_time`). -/
def reconcileStepGB (now : Nat) (s : AIState) (np : String × ProvRec) : AIState :=
  let t := provGetLastFailureTime np.2
  if !np.2.available && timeTruthy t && decide (600 < now - t.getD 0) then
    reenableProvider s np.1
  else if !s.provider_enabled np.1 && timeTruthy t && decide (600 < now - t.getD 0) then
    { s with
      provider_enabled := fupd s.provider_enabled np.1 true,
      last_failure_time := fupd s.last_failure_time np.1 none }
  else s

/-- The reconciliation loop of `get_best_provider`. -/
def reconcileGB (st : AIState) (now : Nat) : AIState :=
  st.providers.foldl (reconcileStepGB now) st

/-- One iteration of the reconciliation loop of
`_get_next_available_provider` (a single combined condition
`(not available or not enabled) and provider.get('last_failure_time') and ...`). -/
def reconcileStepNext (now : Nat) (s : AIState) (np : String × ProvRec) : AIState :=
  let t := provGetLastFailureTime np.2
  if (!np.2.available || !s.provider_enabled np.1) && timeTruthy t &&
      decide (600 < now - t.getD 0) then
    reenableProvider s np.1
  else s

/-- The reconciliation loop of `_get_next_available_provider`. -/
def reconcileNext (st : AIState) (now : Nat) : AIState :=
  st.providers.foldl (reconcileStepNext now) st

/-- Python tuple comparison on `(priority, consecutive_failures)` keys. -/
def tupLe (a b : Nat × Nat) : Bool :=
  decide (a.1 < b.1) || (decide (a.1 = b.1) && decide (a.2 ≤ b.2))

/-- Stable insertion for `tupLe`: an element is placed before the first
strictly-greater one, so earlier elements stay before equal keys. -/
def insertByKey {α : Type} (key : α → Nat × Nat) (x : α) : List α → List α
  | [] => [x]
  | y :: ys =>
    if tupLe (key x) (key y) then x :: y :: ys else insertByKey key x ys |> (y :: ·)

/-- Stable sort by key; extensionally equal to Python's stable
`list.sort(key=...)`. -/
def sortByKeyList {α : Type} (key : α → Nat × Nat) : List α → List α
  | [] => []
  | x :: xs => insertByKey key x (sortByKeyList key xs)

/-- `available_providers.sort(key=lambda x: (x[1]['priority'],
self.provider_failures[x[0]]))`. -/
def sortCands (st : AIState) (l : List (String × ProvRec)) : List (String × ProvRec) :=
  sortByKeyList (fun np => (np.2.priority, st.provider_failures np.1)) l

/-- The candidate filter of `get_best_provider`:
`available and enabled and provider_failures < max_failures`. -/
def eligibleGB (st : AIState) : List (String × ProvRec) :=
  st.providers.filter fun np =>
    np.2.available && st.provider_enabled np.1 &&
      decide (st.provider_failures np.1 < max_failures)

/-- One iteration of the exhaustion-fallback reset of `get_best_provider`:
skip unavailable providers; for an available one with positive consecutive
failures, zero them (but not `error_count`), clear bookkeeping, re-enable. -/
def globalResetStep (s : AIState) (np : String × ProvRec) : AIState :=
  if !np.2.available then s
  else if 0 < s.provider_failures np.1 then
    { s with
      provider_failures := fupd s.provider_failures np.1 0,
      last_error := fupd s.last_error np.1 none,
      last_failure_time := fupd s.last_failure_time np.1 none,
      provider_enabled := fupd s.provider_enabled np.1 true }
  else s

/-- The exhaustion-fallback reset loop of `get_best_provider`. -/
def globalReset (st : AIState) : AIState :=
  st.providers.foldl globalResetStep st

/-- `AIManager.get_best_provider`: reconcile cooldowns, filter and rank the
healthy providers; on an empty candidate set, run the forced reset and
re-filter on `available and enabled` only; return the top-ranked name, or
`None`. -/
def getBestProvider (st : AIState) (now : Nat) : AIState × Option String :=
  let st1 := reconcileGB st now
  let cands := eligibleGB st1
  if cands.isEmpty then
    let st2 := globalReset st1
    let cands2 := st2.providers.filter fun np =>
      np.2.available && st2.provider_enabled np.1
    match sortCands st2 cands2 with
    | [] => (st2, none)
    | np :: _ => (st2, some np.1)
  else
    match sortCands st1 cands with
    | [] => (st1, none)
    | np :: _ => (st1, some np.1)

/-- The candidate filter of `_get_next_available_provider`:
`name not in exclude and available and enabled and failures < max_failures`. -/
def eligibleNext (st : AIState) (exclude : List String) : List (String × ProvRec) :=
  st.providers.filter fun np =>
    !decide (np.1 ∈ exclude) && np.2.available && st.provider_enabled np.1 &&
      decide (st.provider_failures np.1 < max_failures)

/-- `AIManager._get_next_available_provider`: reconcile cooldowns, filter
excluding `exclude`, rank, and return the top name or `None`. -/
def getNextAvailableProvider (st : AIState) (exclude : List String) (now : Nat) :
    AIState × Option String :=
  let st1 := reconcileNext st now
  match sortCands st1 (eligibleNext st1 exclude) with
  | [] => (st1, none)
  | np :: _ => (st1, some np.1)

/-- `AIManager._handle_provider_failure`: classify the error text; a
rate-limit match goes to `_handle_rate_limit` (with the 600 s extended
timeout when the provider is gemini), anything else to `_record_failure`;
then return `_get_next_available_provider` excluding the failed provider.
With `pname = none` no failure is recorded. -/
def handleProviderFailure (st : AIState) (pname : Option String) (msg : String)
    (now : Nat) : AIState × Option String :=
  let st1 :=
    match pname with
    | none => st
    | some n =>
      if isRateLimitMsg msg then
        if n = "gemini" then handleRateLimit st n msg (some 600) now
        else handleRateLimit st n msg none now
      else recordFailure st n msg now
  getNextAvailableProvider st1 (match pname with | some n => [n] | none => []) now

/-! Provider invocation.  The network backends are external to the
repository; each backend call is modelled by an oracle mapping the
provider (or huggingface model), the prompt and the token budget to an
outcome.  Everything the generators do around that call — client checks,
empty-response detection, error classification, ledger updates — is
embedded from the source. -/

/-- Outcome of one backend API call: a returned text (possibly empty) or a
raised exception carrying its message. -/
inductive GenOutcome where
  | ok (text : String)
  | exn (msg : String)
deriving Repr, DecidableEq

/-- Outcome of one huggingface HTTP request: a status code together with
the extracted `generated_text` field and the raw body text, or a raised
exception. -/
inductive HFResp where
  | http (status : Nat) (generatedText : String) (body : String)
  | exn (msg : String)
deriving Repr, DecidableEq

/-- The external backends. -/
structure Oracle where
  gen : String → String → Nat → GenOutcome
  hf : String → String → Nat → HFResp

/-- `min(max_tokens, 8192)` in `_generate_with_gemini`. -/
def geminiTokenBudget (mt : Nat) : Nat := min mt 8192

/-- `min(max_tokens, 8192)` in `_generate_with_groq`. -/
def groqTokenBudget (mt : Nat) : Nat := min mt 8192

/-- `min(max_tokens, 4096)` in `_generate_with_openai`. -/
def openaiTokenBudget (mt : Nat) : Nat := min mt 4096

/-- `min(max_tokens, 1024)` in `_generate_with_huggingface`. -/
def huggingfaceTokenBudget (mt : Nat) : Nat := min mt 1024

/-- The `except` block of `_generate_with_gemini`: on a rate-limit match it
calls `_handle_rate_limit(self.providers['gemini']['model'], ..., 600)` —
note the source passes the model label, not the provider name — otherwise
`_record_failure('gemini', ...)`. -/
def geminiInnerFail (st : AIState) (msg : String) (now : Nat) : AIState :=
  if isRateLimitMsg msg then
    handleRateLimit st (lookupRec st "gemini").model msg (some 600) now
  else recordFailure st "gemini" msg now

/-- The `except` block shared in shape by `_generate_with_groq` and
`_generate_with_openai`: rate-limit match goes to `_handle_rate_limit`
without extended timeout, otherwise `_record_failure`. -/
def providerInnerFail (st : AIState) (n : String) (msg : String) (now : Nat) : AIState :=
  if isRateLimitMsg msg then handleRateLimit st n msg none now
  else recordFailure st n msg now

/-- `AIManager._generate_with_gemini`. -/
def genGemini (oracle : Oracle) (st : AIState) (prompt : String) (mt : Nat)
    (now : Nat) : AIState × Except String String :=
  if !(lookupRec st "gemini").hasClient then
    (st, .error "Cliente Gemini não inicializado.")
  else
    match oracle.gen "gemini" prompt (geminiTokenBudget mt) with
    | .ok t =>
      if t ≠ "" then (st, .ok t)
      else (geminiInnerFail st "Resposta vazia do Gemini" now,
            .error "Resposta vazia do Gemini")
    | .exn m => (geminiInnerFail st m now, .error m)

/-- `AIManager._generate_with_groq`. -/
def genGroq (oracle : Oracle) (st : AIState) (prompt : String) (mt : Nat)
    (now : Nat) : AIState × Except String String :=
  if !(lookupRec st "groq").hasClient then
    (st, .error "Cliente Groq não inicializado.")
  else
    match oracle.gen "groq" prompt (groqTokenBudget mt) with
    | .ok t =>
      if t ≠ "" then (st, .ok t)
      else (providerInnerFail st "groq" "Resposta vazia do Groq" now,
            .error "Resposta vazia do Groq")
    | .exn m => (providerInnerFail st "groq" m now, .error m)

/-- `AIManager._generate_with_openai`. -/
def genOpenai (oracle : Oracle) (st : AIState) (prompt : String) (mt : Nat)
    (now : Nat) : AIState × Except String String :=
  if !(lookupRec st "openai").hasClient then
    (st, .error "Cliente OpenAI não inicializado.")
  else
    match oracle.gen "openai" prompt (openaiTokenBudget mt) with
    | .ok t =>
      if t ≠ "" then (st, .ok t)
      else (providerInnerFail st "openai" "Resposta vazia do OpenAI" now,
            .error "Resposta vazia do OpenAI")
    | .exn m => (providerInnerFail st "openai" m now, .error m)

/-- The model-rotation loop of `_generate_with_huggingface`: one fuel unit
per configured model; each iteration advances `current_model_index`, issues
the HTTP call, returns on a non-empty 200 body, skips a 503, records a
failure (or rate limit on 429) on other statuses or exceptions, and raises
after the last model. -/
def hfLoop (oracle : Oracle) (prompt : String) (mt : Nat) (now : Nat) :
    Nat → AIState → AIState × Except String String
  | 0, st => (st, .error "Todos os modelos HuggingFace falharam")
  | fuel + 1, st =>
    let config := lookupRec st "huggingface"
    let idx := config.current_model_index
    let mdl := config.models.getD idx ""
    let st1 := { st with
      providers := updateProvL st.providers "huggingface"
        (fun p => { p with current_model_index := (idx + 1) % config.models.length }) }
    match oracle.hf mdl prompt (huggingfaceTokenBudget mt) with
    | .http 200 g _ =>
      if g ≠ "" then (st1, .ok g) else hfLoop oracle prompt mt now fuel st1
    | .http 503 _ _ => hfLoop oracle prompt mt now fuel st1
    | .http code _ body =>
      let emsg := "Erro " ++ toString code ++ ": " ++ body
      let st2 :=
        if code = 429 then handleRateLimit st1 "huggingface" emsg none now
        else recordFailure st1 "huggingface" emsg now
      hfLoop oracle prompt mt now fuel st2
    | .exn m => hfLoop oracle prompt mt now fuel (recordFailure st1 "huggingface" m now)

/-- `AIManager._generate_with_huggingface`. -/
def genHuggingface (oracle : Oracle) (st : AIState) (prompt : String) (mt : Nat)
    (now : Nat) : AIState × Except String String :=
  if !(lookupRec st "huggingface").hasClient then
    (st, .error "Cliente HuggingFace não inicializado.")
  else hfLoop oracle prompt mt now (lookupRec st "huggingface").models.length st

/-- Lift a generator result to the `Optional[str]` type of `_call_provider`. -/
def liftGen (r : AIState × Except String String) : AIState × Except String (Option String) :=
  (r.1, r.2.map some)

/-- `AIManager._call_provider`: dispatch on the provider name; an unknown
name returns `None` without raising. -/
def callProvider (oracle : Oracle) (st : AIState) (n : String) (prompt : String)
    (mt : Nat) (now : Nat) : AIState × Except String (Option String) :=
  if n = "gemini" then liftGen (genGemini oracle st prompt mt now)
  else if n = "groq" then liftGen (genGroq oracle st prompt mt now)
  else if n = "openai" then liftGen (genOpenai oracle st prompt mt now)
  else if n = "huggingface" then liftGen (genHuggingface oracle st prompt mt now)
  else (st, .ok none)

/-- Python truthiness of the `Optional[str]` returned by `_call_provider`. -/
def truthyResp : Option String → Bool
  | some t => t != ""
  | none => false

/-- The keyword arguments forwarded by `generate_analysis`; only
`max_tokens` is ever read by `_try_providers`. -/
structure Kwargs (α : Type) where
  max_tokens : Nat
  temperature : α

/-- What a `_try_providers` call hands back to its caller: the success dict
(response text, provider name, token estimate), or — on the failure path —
the bare return value of `_handle_provider_failure`, which is the *name* of
the next available provider or `None`. -/
inductive TryResult where
  | success (response : String) (provider : String) (tokensX10 : Nat)
  | nextName (n : String)
  | noResult
deriving Repr, DecidableEq

/-- Lift `_handle_provider_failure`'s `Optional[str]` into `TryResult`. -/
def toTryResult : Option String → TryResult
  | some n => .nextName n
  | none => .noResult

/-- Count of maximal non-space runs, i.e. `len(s.split())`. -/
def countRuns (inWord : Bool) : List Char → Nat
  | [] => 0
  | c :: rest =>
    if c = ' ' then countRuns false rest
    else (if inWord then 0 else 1) + countRuns true rest

/-- The `len(response.split()) * 1.3` token estimate, scaled by 10 to stay
in `Nat` (no claim depends on this value). -/
def approxTokensX10 (s : String) : Nat :=
  13 * countRuns false s.data

/-- `AIManager._try_providers`: pick the best provider (fail with no result
if none); for the `generate` method invoke it once; on a truthy response
record the success and return the response dict; on a falsy response record
`"Resposta vazia do provedor."` and fall through to
`_handle_provider_failure`; on an exception go to `_handle_provider_failure`
directly.  The failure handler's return value (a provider name or `None`)
is returned to the caller as-is — no second provider is ever invoked. -/
def tryProviders {α : Type} (oracle : Oracle) (st : AIState) (method : String)
    (prompt : String) (kwargs : Kwargs α) (now : Nat) : AIState × TryResult :=
  let mt := kwargs.max_tokens
  match getBestProvider st now with
  | (st1, none) => (st1, .noResult)
  | (st1, some n) =>
    if method = "generate" then
      match callProvider oracle st1 n prompt mt now with
      | (st2, .ok r) =>
        if truthyResp r then
          (recordSuccess st2 n now,
           .success (r.getD "") n (approxTokensX10 (r.getD "")))
        else
          let st3 := recordFailure st2 n "Resposta vazia do provedor." now
          let res := handleProviderFailure st3 (some n)
            "Falha na primeira tentativa de gerar resposta." now
          (res.1, toTryResult res.2)
      | (st2, .error e) =>
        let res := handleProviderFailure st2 (some n) e now
        (res.1, toTryResult res.2)
    else
      let res := handleProviderFailure st1 (some n)
        "Falha na primeira tentativa de gerar resposta." now
      (res.1, toTryResult res.2)

/-- `AIManager.generate_analysis`: forwards to
`_try_providers('generate', prompt, max_tokens=..., temperature=...)`. -/
def generateAnalysis {α : Type} (oracle : Oracle) (st : AIState) (prompt : String)
    (mt : Nat) (temperature : α) (now : Nat) : AIState × TryResult :=
  tryProviders oracle st "generate" prompt
    { max_tokens := mt, temperature := temperature } now

/-- The module-level import-success flags `HAS_GEMINI`, `HAS_GROQ_CLIENT`,
`HAS_OPENAI` consulted by `reset_provider_errors`. -/
structure EnvFlags where
  hasGemini : Bool
  hasGroq : Bool
  hasOpenai : Bool
deriving Repr, DecidableEq

/-- The re-availability condition of `reset_provider_errors`:
`client or (name=='gemini' and HAS_GEMINI) or (name=='groq' and
HAS_GROQ_CLIENT) or (name=='openai' and HAS_OPENAI)`. -/
def clientAvailCond (flags : EnvFlags) (n : String) (p : ProvRec) : Bool :=
  p.hasClient || (n == "gemini" && flags.hasGemini) ||
    (n == "groq" && flags.hasGroq) || (n == "openai" && flags.hasOpenai)

/-- `AIManager.reset_provider_errors` with a provider name: zero both error
counters, clear bookkeeping, force-enable, and re-mark available when a
client or library is present. -/
def resetOneProvider (flags : EnvFlags) (st : AIState) (n : String) : AIState :=
  if n ∈ namesOf st.providers then
    { st with
      providers := updateProvL st.providers n (fun p =>
        { p with error_count := 0, consecutive_failures := 0,
                 available := if clientAvailCond flags n p then true else p.available }),
      provider_failures := fupd st.provider_failures n 0,
      last_error := fupd st.last_error n none,
      last_failure_time := fupd st.last_failure_time n none,
      provider_enabled := fupd st.provider_enabled n true }
  else st

/-- `AIManager.reset_provider_errors` with no name: the same reset applied
to every registered provider. -/
def resetAllProviders (flags : EnvFlags) (st : AIState) : AIState :=
  { st with
    providers := st.providers.map (fun np =>
      let p := np.2
      let p2 := { p with
        error_count := 0,
        consecutive_failures := 0,
        available := if clientAvailCond flags np.1 p then true else p.available }
      (np.1, p2)),
    provider_failures := fun m => if m ∈ namesOf st.providers then 0 else st.provider_failures m,
    last_error := fun m => if m ∈ namesOf st.providers then none else st.last_error m,
    last_failure_time := fun m =>
      if m ∈ namesOf st.providers then none else st.last_failure_time m,
    provider_enabled := fun m =>
      if m ∈ namesOf st.providers then true else st.provider_enabled m }

/-! Concrete scenario states used by witnesses and counterexamples. -/

/-- A healthy provider record with the given priority rank. -/
def mkRec (prio : Nat) : ProvRec :=
  { hasClient := true, available := true, priority := prio, error_count := 0,
    model := "", max_errors := 2, last_success := none,
    consecutive_failures := 0, models := [], current_model_index := 0 }

/-- The gemini record, carrying the static model label from `__init__`. -/
def gemRec : ProvRec := { mkRec 1 with model := "gemini-2.0-flash-exp" }

/-- A fresh three-provider ledger ranked 1, 2, 3 with all parallel dicts at
their `__init__` values. -/
def st3 : AIState :=
  { providers := [("gemini", gemRec), ("groq", mkRec 2), ("openai", mkRec 3)],
    provider_failures := fun _ => 0,
    last_error := fun _ => none,
    provider_enabled := fun _ => true,
    last_failure_time := fun _ => none,
    rate_limits := fun _ => none }

/-- Backends where gemini raises a generic (non-rate-limit) error and every
other provider would answer successfully. -/
def oracleFailGemini : Oracle :=
  { gen := fun n _ _ => if n = "gemini" then .exn "connection reset by peer" else .ok "resposta ok",
    hf := fun _ _ _ => .exn "unused" }

/-- The three-provider ledger after gemini was disabled with its failure
time recorded (as `_record_failure` writes it: in the manager-level dict). -/
def stCooldown : AIState :=
  { st3 with
    provider_enabled := fun n => !(n == "gemini"),
    provider_failures := fun n => if n = "gemini" then 3 else 0,
    last_failure_time := fun n => if n = "gemini" then some 100 else none,
    last_error := fun n => if n = "gemini" then some "falha" else none }

/-- The three-provider ledger where gemini's backend was never successfully
constructed (`available=False`) but a failure time is on record. -/
def stCooldownUnavail : AIState :=
  { st3 with
    providers := updateProvL st3.providers "gemini" (fun p => { p with available := false }),
    last_failure_time := fun n => if n = "gemini" then some 100 else none }

/-- One full `_try_providers('generate', ...)` dispatch on the fresh
three-provider ledger with gemini raising a generic error. -/
def c1run : AIState × TryResult :=
  tryProviders oracleFailGemini st3 "generate" "p"
    { max_tokens := 1000, temperature := (0 : Nat) } 1000

/-- Ledger after the first failing `generate_analysis` call of the C2
scenario. -/
def c2state1 : AIState := (generateAnalysis oracleFailGemini st3 "p" 1000 (0 : Nat) 1000).1

/-- Ledger after the second consecutive failing `generate_analysis` call of
the C2 scenario. -/
def c2state2 : AIState := (generateAnalysis oracleFailGemini c2state1 "p" 1000 (0 : Nat) 2000).1

/-- A registered provider whose consecutive-failure count has reached
`max_failures` is disabled. -/
@[reducible] def FailureInv (st : AIState) : Prop :=
  ∀ n ∈ namesOf st.providers,
    max_failures ≤ st.provider_failures n → st.provider_enabled n = false

/-! Basic lemmas about the map and list helpers. -/

theorem fupd_self {β : Type} (f : String → β) (k : String) (v : β) : fupd f k v k = v := by
  simp [fupd]

theorem fupd_ne {β : Type} (f : String → β) (k x : String) (v : β) (h : x ≠ k) :
    fupd f k v x = f x := by
  simp [fupd, h]

theorem namesOf_updateProvL (l : List (String × ProvRec)) (n : String) (f : ProvRec → ProvRec) :
    namesOf (updateProvL l n f) = namesOf l := by
  induction l with
  | nil => rfl
  | cons x r ih =>
    simp only [updateProvL, namesOf, List.map_cons] at *
    by_cases h : x.1 = n <;> simp [h, ih]

theorem namesOf_map_keep (l : List (String × ProvRec)) (g : String × ProvRec → ProvRec) :
    namesOf (l.map fun np => (np.1, g np)) = namesOf l := by
  induction l with
  | nil => rfl
  | cons x r ih => simp only [namesOf, List.map_cons] at *; simp [ih]

theorem lookupName_updateProvL_self (l : List (String × ProvRec)) (n : String)
    (f : ProvRec → ProvRec) :
    lookupName (updateProvL l n f) n = (lookupName l n).map f := by
  induction l with
  | nil => rfl
  | cons x r ih =>
    simp only [updateProvL, List.map_cons] at ih ⊢
    by_cases h : x.1 = n
    · simp [lookupName, h]
    · simp [lookupName, h, ih]

theorem lookupName_updateProvL_ne (l : List (String × ProvRec)) (n m : String)
    (f : ProvRec → ProvRec) (h : m ≠ n) :
    lookupName (updateProvL l n f) m = lookupName l m := by
  induction l with
  | nil => rfl
  | cons x r ih =>
    simp only [updateProvL, List.map_cons] at ih ⊢
    have hnm : n ≠ m := fun hc => h hc.symm
    by_cases hx : x.1 = n
    · have hxm : x.1 ≠ m := by rw [hx]; exact hnm
      simp [lookupName, hx, hxm, hnm, ih]
    · by_cases hxm : x.1 = m <;> simp [lookupName, hx, hxm, h, ih]

theorem lookupName_mem_names (l : List (String × ProvRec)) (n : String) (p : ProvRec)
    (h : lookupName l n = some p) : n ∈ namesOf l := by
  induction l with
  | nil => simp [lookupName] at h
  | cons x r ih =>
    by_cases hx : x.1 = n
    · simp [namesOf, hx.symm]
    · simp only [lookupName, if_neg hx] at h
      simp [namesOf] at *
      exact Or.inr (ih h)

theorem foldl_fixed {β γ : Type} (f : β → γ → β) (h : ∀ s x, f s x = s) :
    ∀ (l : List γ) (s : β), l.foldl f s = s := by
  intro l
  induction l with
  | nil => intro s; rfl
  | cons x r ih => intro s; rw [List.foldl_cons, h s x]; exact ih s

/-! The reconciliation loops are identities: their guards read
`provider.get('last_failure_time')`, which is always `None`. -/

theorem reconcileStepGB_eq (now : Nat) (s : AIState) (np : String × ProvRec) :
    reconcileStepGB now s np = s := by
  simp [reconcileStepGB, provGetLastFailureTime, timeTruthy]

theorem reconcileStepNext_eq (now : Nat) (s : AIState) (np : String × ProvRec) :
    reconcileStepNext now s np = s := by
  simp [reconcileStepNext, provGetLastFailureTime, timeTruthy]

theorem reconcileGB_eq (st : AIState) (now : Nat) : reconcileGB st now = st :=
  foldl_fixed _ (reconcileStepGB_eq now) st.providers st

theorem reconcileNext_eq (st : AIState) (now : Nat) : reconcileNext st now = st :=
  foldl_fixed _ (reconcileStepNext_eq now) st.providers st

/-! Lemmas about the stable key sort. -/

theorem tupLe_refl (a : Nat × Nat) : tupLe a a = true := by
  simp [tupLe]

theorem tupLe_total (a b : Nat × Nat) : tupLe a b = true ∨ tupLe b a = true := by
  simp only [tupLe, Bool.or_eq_true, Bool.and_eq_true, decide_eq_true_eq]
  omega

theorem tupLe_trans (a b c : Nat × Nat) (h1 : tupLe a b = true) (h2 : tupLe b c = true) :
    tupLe a c = true := by
  simp only [tupLe, Bool.or_eq_true, Bool.and_eq_true, decide_eq_true_eq] at *
  omega

theorem mem_insertByKey {α : Type} (key : α → Nat × Nat) (x a : α) (l : List α) :
    a ∈ insertByKey key x l ↔ a = x ∨ a ∈ l := by
  induction l with
  | nil => simp [insertByKey]
  | cons y ys ih =>
    by_cases h : tupLe (key x) (key y) = true
    · simp [insertByKey, h]
    · simp only [insertByKey, if_neg h]
      simp [ih]
      tauto

theorem mem_sortByKeyList {α : Type} (key : α → Nat × Nat) (a : α) (l : List α) :
    a ∈ sortByKeyList key l ↔ a ∈ l := by
  induction l with
  | nil => simp [sortByKeyList]
  | cons x xs ih => simp [sortByKeyList, mem_insertByKey, ih]

theorem insertByKey_ne_nil {α : Type} (key : α → Nat × Nat) (x : α) (l : List α) :
    insertByKey key x l ≠ [] := by
  cases l with
  | nil => simp [insertByKey]
  | cons y ys =>
    by_cases h : tupLe (key x) (key y) = true <;> simp [insertByKey, h]

theorem sortByKeyList_eq_nil_iff {α : Type} (key : α → Nat × Nat) (l : List α) :
    sortByKeyList key l = [] ↔ l = [] := by
  cases l with
  | nil => simp [sortByKeyList]
  | cons x xs => simp [sortByKeyList, insertByKey_ne_nil]

theorem pairwise_insertByKey {α : Type} (key : α → Nat × Nat) (x : α) (l : List α)
    (h : l.Pairwise (fun a b => tupLe (key a) (key b) = true)) :
    (insertByKey key x l).Pairwise (fun a b => tupLe (key a) (key b) = true) := by
  induction l with
  | nil => simp [insertByKey]
  | cons y ys ih =>
    rw [List.pairwise_cons] at h
    obtain ⟨hy, hys⟩ := h
    by_cases hx : tupLe (key x) (key y) = true
    · simp only [insertByKey, if_pos hx]
      rw [List.pairwise_cons]
      refine ⟨?_, ?_⟩
      · intro b hb
        rcases List.mem_cons.mp hb with hb | hb
        · rw [hb]; exact hx
        · exact tupLe_trans _ _ _ hx (hy b hb)
      · rw [List.pairwise_cons]
        exact ⟨hy, hys⟩
    · simp only [insertByKey, if_neg hx]
      rw [List.pairwise_cons]
      refine ⟨?_, ih hys⟩
      intro b hb
      rcases (mem_insertByKey key x b ys).mp hb with hb | hb
      · rw [hb]
        rcases tupLe_total (key x) (key y) with hc | hc
        · exact absurd hc hx
        · exact hc
      · exact hy b hb

theorem pairwise_sortByKeyList {α : Type} (key : α → Nat × Nat) (l : List α) :
    (sortByKeyList key l).Pairwise (fun a b => tupLe (key a) (key b) = true) := by
  induction l with
  | nil => simp [sortByKeyList]
  | cons x xs ih => exact pairwise_insertByKey key x _ ih

theorem sortByKeyList_head_min {α : Type} (key : α → Nat × Nat) (l : List α)
    (x : α) (rest : List α) (h : sortByKeyList key l = x :: rest) :
    ∀ a ∈ l, tupLe (key x) (key a) = true := by
  intro a ha
  have ha' : a ∈ x :: rest := by
    rw [← h]
    exact (mem_sortByKeyList key a l).mpr ha
  rcases List.mem_cons.mp ha' with hax | har
  · rw [hax]; exact tupLe_refl _
  · have hp := pairwise_sortByKeyList key l
    rw [h, List.pairwise_cons] at hp
    exact hp.1 a har

theorem sortByKeyList_head_mem {α : Type} (key : α → Nat × Nat) (l : List α)
    (x : α) (rest : List α) (h : sortByKeyList key l = x :: rest) : x ∈ l := by
  have : x ∈ sortByKeyList key l := by rw [h]; exact List.mem_cons_self x rest
  exact (mem_sortByKeyList key x l).mp this

/-! Lemmas about the exhaustion-fallback reset loop. -/

theorem globalResetStep_providers (s : AIState) (np : String × ProvRec) :
    (globalResetStep s np).providers = s.providers := by
  unfold globalResetStep
  split
  · rfl
  · split <;> rfl

theorem globalResetStep_dicho (s : AIState) (np : String × ProvRec) (n : String) :
    ((globalResetStep s np).provider_failures n = s.provider_failures n ∧
     (globalResetStep s np).provider_enabled n = s.provider_enabled n) ∨
    ((globalResetStep s np).provider_failures n = 0 ∧
     (globalResetStep s np).provider_enabled n = true) := by
  unfold globalResetStep
  split
  · exact Or.inl ⟨rfl, rfl⟩
  · split
    · by_cases h : n = np.1
      · exact Or.inr ⟨by simp [fupd, h], by simp [fupd, h]⟩
      · exact Or.inl ⟨fupd_ne _ _ _ _ h, fupd_ne _ _ _ _ h⟩
    · exact Or.inl ⟨rfl, rfl⟩

theorem globalResetStep_processed (s : AIState) (np : String × ProvRec)
    (havail : np.2.available = true)
    (hd : s.provider_enabled np.1 = false → 0 < s.provider_failures np.1) :
    (globalResetStep s np).provider_failures np.1 = 0 ∧
    (globalResetStep s np).provider_enabled np.1 = true := by
  unfold globalResetStep
  rw [havail]
  simp only [Bool.not_true, Bool.false_eq_true, if_false]
  split
  · exact ⟨fupd_self _ _ _, fupd_self _ _ _⟩
  · rename_i hpos
    have h0 : s.provider_failures np.1 = 0 := by omega
    refine ⟨h0, ?_⟩
    by_cases he : s.provider_enabled np.1 = true
    · exact he
    · have := hd (Bool.not_eq_true _ ▸ (by simpa using he))
      omega

theorem globalResetStep_processed_failures (s : AIState) (np : String × ProvRec)
    (havail : np.2.available = true) :
    (globalResetStep s np).provider_failures np.1 = 0 := by
  unfold globalResetStep
  rw [havail]
  simp only [Bool.not_true, Bool.false_eq_true, if_false]
  split
  · exact fupd_self _ _ _
  · omega

theorem globalReset_fold_providers (l : List (String × ProvRec)) (s : AIState) :
    (l.foldl globalResetStep s).providers = s.providers := by
  induction l generalizing s with
  | nil => rfl
  | cons x xs ih => rw [List.foldl_cons, ih, globalResetStep_providers]

theorem globalReset_fold_dicho (l : List (String × ProvRec)) (s : AIState) (n : String) :
    ((l.foldl globalResetStep s).provider_failures n = s.provider_failures n ∧
     (l.foldl globalResetStep s).provider_enabled n = s.provider_enabled n) ∨
    ((l.foldl globalResetStep s).provider_failures n = 0 ∧
     (l.foldl globalResetStep s).provider_enabled n = true) := by
  induction l generalizing s with
  | nil => exact Or.inl ⟨rfl, rfl⟩
  | cons x xs ih =>
    rw [List.foldl_cons]
    rcases ih (globalResetStep s x) with ⟨h1, h2⟩ | h
    · rcases globalResetStep_dicho s x n with ⟨g1, g2⟩ | g
      · exact Or.inl ⟨h1.trans g1, h2.trans g2⟩
      · exact Or.inr ⟨h1.trans g.1, h2.trans g.2⟩
    · exact Or.inr h

theorem globalReset_fold_stable (l : List (String × ProvRec)) (s : AIState) (n : String)
    (h0 : s.provider_failures n = 0) (h1 : s.provider_enabled n = true) :
    (l.foldl globalResetStep s).provider_failures n = 0 ∧
    (l.foldl globalResetStep s).provider_enabled n = true := by
  rcases globalReset_fold_dicho l s n with ⟨g1, g2⟩ | g
  · exact ⟨g1.trans h0, g2.trans h1⟩
  · exact g

theorem globalReset_fold_avail (l : List (String × ProvRec)) (s : AIState)
    (hre : ∀ np ∈ l, s.provider_enabled np.1 = false → 0 < s.provider_failures np.1) :
    ∀ np ∈ l, np.2.available = true →
      (l.foldl globalResetStep s).provider_failures np.1 = 0 ∧
      (l.foldl globalResetStep s).provider_enabled np.1 = true := by
  induction l generalizing s with
  | nil => intro np h; exact absurd h (List.not_mem_nil np)
  | cons x xs ih =>
    intro np hmem havail
    rw [List.foldl_cons]
    have hre' : ∀ np ∈ xs, (globalResetStep s x).provider_enabled np.1 = false →
        0 < (globalResetStep s x).provider_failures np.1 := by
      intro nq hq hen
      rcases globalResetStep_dicho s x nq.1 with ⟨g1, g2⟩ | g
      · rw [g1]; exact hre nq (List.mem_cons_of_mem x hq) (g2 ▸ hen)
      · rw [g.2] at hen; exact absurd hen (by simp)
    rcases List.mem_cons.mp hmem with hx | hxs
    · subst hx
      have hp := globalResetStep_processed s np havail (hre np (List.mem_cons_self np xs))
      exact globalReset_fold_stable xs _ np.1 hp.1 hp.2
    · exact ih (globalResetStep s x) hre' np hxs havail

theorem globalReset_fold_avail_failures (l : List (String × ProvRec)) (s : AIState) :
    ∀ np ∈ l, np.2.available = true →
      (l.foldl globalResetStep s).provider_failures np.1 = 0 := by
  induction l generalizing s with
  | nil => intro np h; exact absurd h (List.not_mem_nil np)
  | cons x xs ih =>
    intro np hmem havail
    rw [List.foldl_cons]
    rcases List.mem_cons.mp hmem with hx | hxs
    · subst hx
      have hp := globalResetStep_processed_failures s np havail
      rcases globalReset_fold_dicho xs (globalResetStep s np) np.1 with ⟨g1, _⟩ | g
      · exact g1.trans hp
      · exact g.1
    · exact ih (globalResetStep s x) np hxs havail

theorem globalReset_providers (st : AIState) : (globalReset st).providers = st.providers :=
  globalReset_fold_providers st.providers st

theorem globalReset_avail (st : AIState)
    (hre : ∀ np ∈ st.providers,
      st.provider_enabled np.1 = false → 0 < st.provider_failures np.1) :
    ∀ np ∈ st.providers, np.2.available = true →
      (globalReset st).provider_failures np.1 = 0 ∧
      (globalReset st).provider_enabled np.1 = true :=
  globalReset_fold_avail st.providers st hre

theorem globalReset_avail_failures (st : AIState) :
    ∀ np ∈ st.providers, np.2.available = true →
      (globalReset st).provider_failures np.1 = 0 :=
  globalReset_fold_avail_failures st.providers st

/-! The threshold-disablement invariant and its preservation by every
ledger operation. -/

theorem failureInv_congr (st st' : AIState)
    (hp : namesOf st'.providers = namesOf st.providers)
    (hf : st'.provider_failures = st.provider_failures)
    (he : st'.provider_enabled = st.provider_enabled)
    (h : FailureInv st) : FailureInv st' := by
  unfold FailureInv at *
  rw [hp, hf, he]
  exact h

theorem recordFailure_inv (st : AIState) (n msg : String) (now : Nat)
    (h : FailureInv st) : FailureInv (recordFailure st n msg now) := by
  unfold FailureInv recordFailure at *
  by_cases hmem : n ∈ namesOf st.providers
  · rw [if_pos hmem]
    intro m hm hf
    dsimp only at hm hf ⊢
    rw [namesOf_updateProvL] at hm
    by_cases hmn : m = n
    · subst hmn
      rw [fupd_self] at hf
      rw [if_pos hf]
      exact fupd_self _ _ _
    · rw [fupd_ne _ _ _ _ hmn] at hf
      split
      · rw [fupd_ne _ _ _ _ hmn]
        exact h m hm hf
      · exact h m hm hf
  · rw [if_neg hmem]
    exact h

theorem recordSuccess_inv (st : AIState) (n : String) (now : Nat)
    (h : FailureInv st) : FailureInv (recordSuccess st n now) := by
  unfold FailureInv recordSuccess at *
  by_cases hmem : n ∈ namesOf st.providers
  · rw [if_pos hmem]
    intro m hm hf
    dsimp only at hm hf ⊢
    rw [namesOf_updateProvL] at hm
    by_cases hmn : m = n
    · subst hmn
      rw [fupd_self] at hf
      exact absurd hf (by simp [max_failures])
    · rw [fupd_ne _ _ _ _ hmn] at hf
      rw [fupd_ne _ _ _ _ hmn]
      exact h m hm hf
  · rw [if_neg hmem]
    exact h

theorem handleRateLimit_inv (st : AIState) (n msg : String) (ext : Option Nat)
    (now : Nat) (h : FailureInv st) : FailureInv (handleRateLimit st n msg ext now) := by
  have h1 : FailureInv (rlRecordState st n msg ext now) :=
    failureInv_congr _ _ rfl rfl rfl h
  have h2 := recordFailure_inv (rlRecordState st n msg ext now) n msg now h1
  unfold handleRateLimit
  unfold FailureInv at h2 ⊢
  intro m hm hf
  dsimp only at hm hf ⊢
  by_cases hmn : m = n
  · subst hmn
    exact fupd_self _ _ _
  · rw [fupd_ne _ _ _ _ hmn]
    exact h2 m hm hf

theorem globalReset_inv (st : AIState) (h : FailureInv st) :
    FailureInv (globalReset st) := by
  unfold FailureInv globalReset at *
  intro m hm hf
  rw [globalReset_fold_providers] at hm
  rcases globalReset_fold_dicho st.providers st m with ⟨g1, g2⟩ | g
  · rw [g2]
    exact h m hm (g1 ▸ hf)
  · rw [g.1] at hf
    exact absurd hf (by simp [max_failures])

theorem getBestProvider_state_inv (st : AIState) (now : Nat) (h : FailureInv st) :
    FailureInv (getBestProvider st now).1 := by
  unfold getBestProvider
  rw [reconcileGB_eq]
  by_cases he : (eligibleGB st).isEmpty
  · rw [if_pos he]
    have hg := globalReset_inv st h
    cases hs : sortCands (globalReset st)
        ((globalReset st).providers.filter fun np =>
          np.2.available && (globalReset st).provider_enabled np.1) with
    | nil => simpa [hs] using hg
    | cons x rest => simpa [hs] using hg
  · rw [if_neg he]
    cases hs : sortCands st (eligibleGB st) with
    | nil => simpa [hs] using h
    | cons x rest => simpa [hs] using h

theorem resetOneProvider_inv (flags : EnvFlags) (st : AIState) (n : String)
    (h : FailureInv st) : FailureInv (resetOneProvider flags st n) := by
  unfold FailureInv resetOneProvider at *
  by_cases hmem : n ∈ namesOf st.providers
  · rw [if_pos hmem]
    intro m hm hf
    dsimp only at hm hf ⊢
    rw [namesOf_updateProvL] at hm
    by_cases hmn : m = n
    · subst hmn
      rw [fupd_self] at hf
      exact absurd hf (by simp [max_failures])
    · rw [fupd_ne _ _ _ _ hmn] at hf
      rw [fupd_ne _ _ _ _ hmn]
      exact h m hm hf
  · rw [if_neg hmem]
    exact h

theorem resetAllProviders_inv (flags : EnvFlags) (st : AIState)
    (h : FailureInv st) : FailureInv (resetAllProviders flags st) := by
  unfold FailureInv resetAllProviders at *
  intro m hm hf
  dsimp only at hm hf ⊢
  rw [namesOf_map_keep] at hm
  rw [if_pos hm] at hf
  exact absurd hf (by simp [max_failures])

theorem reconcileGB_inv (st : AIState) (now : Nat) (h : FailureInv st) :
    FailureInv (reconcileGB st now) := by rw [reconcileGB_eq]; exact h

theorem reconcileNext_inv (st : AIState) (now : Nat) (h : FailureInv st) :
    FailureInv (reconcileNext st now) := by rw [reconcileNext_eq]; exact h

/-! Field lemmas for the rate-limit handler and for selection. -/

theorem recordFailure_rate_limits (st : AIState) (n msg : String) (now : Nat) :
    (recordFailure st n msg now).rate_limits = st.rate_limits := by
  unfold recordFailure
  split <;> rfl

theorem handleRateLimit_fields (st : AIState) (n msg : String) (ext : Option Nat)
    (now : Nat) :
    (handleRateLimit st n msg ext now).provider_enabled n = false ∧
    (handleRateLimit st n msg ext now).last_failure_time n = some now ∧
    (handleRateLimit st n msg ext now).rate_limits n =
      some { reset_time := now + rlMinutes ext msg * 60,
             attempts := ((st.rate_limits n).map RateInfo.attempts).getD 0 + 1 } := by
  refine ⟨fupd_self _ _ _, fupd_self _ _ _, ?_⟩
  have h1 : (handleRateLimit st n msg ext now).rate_limits
      = (recordFailure (rlRecordState st n msg ext now) n msg now).rate_limits := rfl
  rw [h1, recordFailure_rate_limits]
  exact fupd_self _ _ _

theorem getNextAvailableProvider_state (st : AIState) (ex : List String) (now : Nat) :
    (getNextAvailableProvider st ex now).1 = st := by
  simp only [getNextAvailableProvider, reconcileNext_eq]
  cases h : sortCands st (eligibleNext st ex) <;> rfl

theorem handleProviderFailure_state (st : AIState) (pname : Option String)
    (msg : String) (now : Nat) :
    (handleProviderFailure st pname msg now).1 =
      (match pname with
       | none => st
       | some n =>
         if isRateLimitMsg msg then
           if n = "gemini" then handleRateLimit st n msg (some 600) now
           else handleRateLimit st n msg none now
         else recordFailure st n msg now) := by
  unfold handleProviderFailure
  rw [getNextAvailableProvider_state]

/-! Claim theorems. -/

/-- Claim C1: the claim says a failed invocation triggers reconcile,
re-selection excluding tried providers, and repeated invocation until
success or exhaustion, with the caller receiving a generation result or
none.  The dispatch actually invokes one provider only: on gemini's
failure it records the failure twice and returns the *name* of the next
eligible provider (`nextName "groq"`) without invoking it — groq, which
would have succeeded, keeps `last_success = none` — so the caller receives
neither a successful generation result nor none. -/
theorem C1_dispatch_returns_next_name_without_retry :
    c1run.2 = TryResult.nextName "groq" ∧
    (∀ r p t, c1run.2 ≠ TryResult.success r p t) ∧
    c1run.2 ≠ TryResult.noResult ∧
    c1run.1.provider_failures "gemini" = 2 ∧
    (lookupRec c1run.1 "groq").last_success = none ∧
    c1run.1.provider_failures "groq" = 0 := by
  refine ⟨by decide, ?_, by decide, by decide, by decide, by decide⟩
  intro r p t h
  have : c1run.2 = TryResult.nextName "groq" := by decide
  rw [this] at h
  exact TryResult.noConfusion h

/-- Claim C2: the claim expects that after two consecutive generic failures
of the rank-1 provider its count is 2, it stays enabled and is still
selected first.  In the code each failed invocation is recorded twice
(once in the generator's `except` block, once in
`_handle_provider_failure`), so one failed call already yields count 2,
and after the two failed calls of the scenario the count is 4, gemini is
disabled and a fresh selection returns groq. -/
theorem C2_double_recording_disables_after_two_failures :
    c2state1.provider_failures "gemini" = 2 ∧
    c2state1.provider_enabled "gemini" = true ∧
    (getBestProvider c2state1 1500).2 = some "gemini" ∧
    c2state2.provider_failures "gemini" = 4 ∧
    c2state2.provider_enabled "gemini" = false ∧
    (getBestProvider c2state2 2500).2 = some "groq" := by
  refine ⟨by decide, by decide, by decide, by decide, by decide, by decide⟩

/-- Claim C3: the claim says cooldown reconciliation re-admits a provider
with `available=false` or `enabled=false` exactly when more than 600 s have
elapsed since `lastFailureTime`.  The code reads
`provider.get('last_failure_time')` from the inner provider dict, where no
failure time is ever stored (writes go to the separate
`self.last_failure_time` map), so even 99900 s after the recorded failure
neither reconciliation loop re-admits the provider. -/
theorem C3_reconciliation_never_readmits :
    stCooldown.provider_enabled "gemini" = false ∧
    stCooldown.last_failure_time "gemini" = some 100 ∧
    600 < 100000 - 100 ∧
    (reconcileGB stCooldown 100000).provider_enabled "gemini" = false ∧
    (reconcileGB stCooldown 100000).provider_failures "gemini" = 3 ∧
    (reconcileNext stCooldown 100000).provider_enabled "gemini" = false ∧
    (lookupRec stCooldownUnavail "gemini").available = false ∧
    stCooldownUnavail.last_failure_time "gemini" = some 100 ∧
    (lookupRec (reconcileGB stCooldownUnavail 100000) "gemini").available = false := by
  rw [reconcileGB_eq stCooldown 100000, reconcileNext_eq stCooldown 100000,
    reconcileGB_eq stCooldownUnavail 100000]
  refine ⟨by decide, by decide, by decide, by decide, by decide, by decide,
    by decide, by decide, by decide⟩

/-- Claim C9: the token budget handed to each backend is the minimum of the
requested budget and the provider's own cap (8192 for gemini and groq,
4096 for openai, 1024 for huggingface), hence never exceeds the cap. -/
theorem C9_token_budget_clamped (mt : Nat) :
    geminiTokenBudget mt = min mt 8192 ∧ geminiTokenBudget mt ≤ 8192 ∧
    groqTokenBudget mt = min mt 8192 ∧ groqTokenBudget mt ≤ 8192 ∧
    openaiTokenBudget mt = min mt 4096 ∧ openaiTokenBudget mt ≤ 4096 ∧
    huggingfaceTokenBudget mt = min mt 1024 ∧ huggingfaceTokenBudget mt ≤ 1024 :=
  ⟨rfl, Nat.min_le_right _ _, rfl, Nat.min_le_right _ _,
   rfl, Nat.min_le_right _ _, rfl, Nat.min_le_right _ _⟩

/-- Claim C10: `generate_analysis` forwards `temperature` into the keyword
arguments, but the dispatch path reads only `max_tokens`; two runs that
differ solely in the temperature argument produce the same result and the
same ledger. -/
theorem C10_temperature_noninterference {α : Type} (oracle : Oracle) (st : AIState)
    (prompt : String) (mt : Nat) (t1 t2 : α) (now : Nat) :
    generateAnalysis oracle st prompt mt t1 now =
      generateAnalysis oracle st prompt mt t2 now := rfl

/-- Claim C8: recording a success zeroes the provider's consecutive-failure
counters, enables it, clears the error and failure-time bookkeeping, stamps
`last_success = now`, keeps its historical `error_count` and its rate-limit
entry, and leaves every other provider's record and bookkeeping untouched. -/
theorem C8_record_success_frame (st : AIState) (n : String) (p : ProvRec) (now : Nat)
    (hmem : lookupName st.providers n = some p) :
    (recordSuccess st n now).provider_failures n = 0 ∧
    (recordSuccess st n now).provider_enabled n = true ∧
    (recordSuccess st n now).last_error n = none ∧
    (recordSuccess st n now).last_failure_time n = none ∧
    lookupName (recordSuccess st n now).providers n =
      some { p with consecutive_failures := 0, last_success := some now } ∧
    (recordSuccess st n now).rate_limits = st.rate_limits ∧
    (∀ q, lookupName (recordSuccess st n now).providers n = some q →
      q.error_count = p.error_count) ∧
    (∀ m, m ≠ n →
      lookupName (recordSuccess st n now).providers m = lookupName st.providers m ∧
      (recordSuccess st n now).provider_failures m = st.provider_failures m ∧
      (recordSuccess st n now).provider_enabled m = st.provider_enabled m ∧
      (recordSuccess st n now).last_error m = st.last_error m ∧
      (recordSuccess st n now).last_failure_time m = st.last_failure_time m) := by
  have hmm : n ∈ namesOf st.providers := lookupName_mem_names _ _ _ hmem
  unfold recordSuccess
  rw [if_pos hmm]
  refine ⟨fupd_self _ _ _, fupd_self _ _ _, fupd_self _ _ _, fupd_self _ _ _,
    ?_, rfl, ?_, ?_⟩
  · dsimp only
    rw [lookupName_updateProvL_self, hmem]
    rfl
  · intro q hq
    dsimp only at hq
    rw [lookupName_updateProvL_self, hmem] at hq
    have hqe := Option.some.inj hq
    rw [← hqe]
  · intro m hmn
    refine ⟨?_, fupd_ne _ _ _ _ hmn, fupd_ne _ _ _ _ hmn,
      fupd_ne _ _ _ _ hmn, fupd_ne _ _ _ _ hmn⟩
    dsimp only
    exact lookupName_updateProvL_ne _ _ _ _ hmn

/-- Witness for C8 at a concrete ledger. -/
theorem C8_record_success_frame_witness :
    lookupName st3.providers "groq" = some (mkRec 2) ∧
    (recordSuccess st3 "groq" 42).provider_failures "groq" = 0 ∧
    (recordSuccess st3 "groq" 42).provider_enabled "groq" = true ∧
    lookupName (recordSuccess st3 "groq" 42).providers "groq" =
      some { mkRec 2 with consecutive_failures := 0, last_success := some 42 } :=
  ⟨by decide,
   (C8_record_success_frame st3 "groq" (mkRec 2) 42 (by decide)).1,
   (C8_record_success_frame st3 "groq" (mkRec 2) 42 (by decide)).2.1,
   (C8_record_success_frame st3 "groq" (mkRec 2) 42 (by decide)).2.2.2.2.1⟩

/-- Claim C6: a provider failure whose error text matches the rate-limit
vocabulary disables the provider immediately (no threshold involved),
stamps `lastFailureTime = now`, and records a rate-limit entry whose
duration is the explicit override when one is given (the dispatch path
passes 600 s exactly for gemini), else 1440 minutes on `day`, 60 on
`hour`, 10 on `minute`, else 4, with the attempt counter incremented. -/
theorem C6_rate_limit_immediate_disable (st : AIState) (n msg : String) (now : Nat)
    (hmsg : isRateLimitMsg msg = true) :
    (handleProviderFailure st (some n) msg now).1.provider_enabled n = false ∧
    (handleProviderFailure st (some n) msg now).1.last_failure_time n = some now ∧
    (handleProviderFailure st (some n) msg now).1.rate_limits n =
      some { reset_time :=
               now + (if n = "gemini" then 600 / 60
                      else if containsSubstr "day" (lowerString msg) then 1440
                      else if containsSubstr "hour" (lowerString msg) then 60
                      else if containsSubstr "minute" (lowerString msg) then 10
                      else 4) * 60,
             attempts := ((st.rate_limits n).map RateInfo.attempts).getD 0 + 1 } := by
  rw [handleProviderFailure_state]
  dsimp only
  rw [if_pos hmsg]
  by_cases hn : n = "gemini"
  · rw [if_pos hn]
    have hf := handleRateLimit_fields st n msg (some 600) now
    refine ⟨hf.1, hf.2.1, ?_⟩
    rw [hf.2.2]
    have hm : rlMinutes (some 600) msg = 600 / 60 := by
      simp [rlMinutes, extGiven]
    rw [hm, if_pos hn]
  · rw [if_neg hn]
    have hf := handleRateLimit_fields st n msg none now
    refine ⟨hf.1, hf.2.1, ?_⟩
    rw [hf.2.2]
    have hm : rlMinutes none msg =
        (if containsSubstr "day" (lowerString msg) then 1440
         else if containsSubstr "hour" (lowerString msg) then 60
         else if containsSubstr "minute" (lowerString msg) then 10
         else 4) := by
      simp [rlMinutes, extGiven]
    rw [hm, if_neg hn]

/-- Witness for C6 at a concrete rate-limited failure. -/
theorem C6_rate_limit_immediate_disable_witness :
    isRateLimitMsg "429 too many requests, retry in one hour" = true ∧
    (handleProviderFailure st3 (some "groq")
      "429 too many requests, retry in one hour" 7).1.provider_enabled "groq" = false ∧
    (handleProviderFailure st3 (some "groq")
      "429 too many requests, retry in one hour" 7).1.last_failure_time "groq" = some 7 ∧
    (handleProviderFailure st3 (some "groq")
      "429 too many requests, retry in one hour" 7).1.rate_limits "groq" =
      some { reset_time :=
               7 + (if "groq" = "gemini" then 600 / 60
                    else if containsSubstr "day"
                      (lowerString "429 too many requests, retry in one hour") then 1440
                    else if containsSubstr "hour"
                      (lowerString "429 too many requests, retry in one hour") then 60
                    else if containsSubstr "minute"
                      (lowerString "429 too many requests, retry in one hour") then 10
                    else 4) * 60,
             attempts := ((st3.rate_limits "groq").map RateInfo.attempts).getD 0 + 1 } := by
  refine ⟨by decide, ?_⟩
  exact C6_rate_limit_immediate_disable st3 "groq"
    "429 too many requests, retry in one hour" 7 (by decide)

/-- Claim C5: the predicate `consecutiveFailures ≥ threshold → ¬enabled`
holds after failure recording, success recording, cooldown reconciliation,
selection (including the global reset), administrative resets, and
rate-limit handling, whenever it held before; crossing the threshold via
failure recording disables the provider, and reconciliation never
re-enables a disabled provider before a reset. -/
theorem C5_threshold_disable_invariant (st : AIState) (hInv : FailureInv st) :
    (∀ n msg now, FailureInv (recordFailure st n msg now)) ∧
    (∀ n now, FailureInv (recordSuccess st n now)) ∧
    (∀ now, FailureInv (reconcileGB st now)) ∧
    (∀ now, FailureInv (reconcileNext st now)) ∧
    (∀ now, FailureInv (getBestProvider st now).1) ∧
    (∀ flags n, FailureInv (resetOneProvider flags st n)) ∧
    (∀ flags, FailureInv (resetAllProviders flags st)) ∧
    (∀ n msg ext now, FailureInv (handleRateLimit st n msg ext now)) ∧
    (∀ pn msg now, FailureInv (handleProviderFailure st pn msg now).1) ∧
    (∀ n msg now, n ∈ namesOf st.providers →
      max_failures ≤ st.provider_failures n + 1 →
      (recordFailure st n msg now).provider_enabled n = false) ∧
    (∀ n now, st.provider_enabled n = false →
      (reconcileGB st now).provider_enabled n = false ∧
      (reconcileNext st now).provider_enabled n = false) := by
  refine ⟨fun n msg now => recordFailure_inv st n msg now hInv,
    fun n now => recordSuccess_inv st n now hInv,
    fun now => reconcileGB_inv st now hInv,
    fun now => reconcileNext_inv st now hInv,
    fun now => getBestProvider_state_inv st now hInv,
    fun flags n => resetOneProvider_inv flags st n hInv,
    fun flags => resetAllProviders_inv flags st hInv,
    fun n msg ext now => handleRateLimit_inv st n msg ext now hInv,
    ?_, ?_, ?_⟩
  · intro pn msg now
    rw [handleProviderFailure_state]
    cases pn with
    | none => exact hInv
    | some n =>
      dsimp only
      by_cases hr : isRateLimitMsg msg = true
      · rw [if_pos hr]
        by_cases hg : n = "gemini"
        · rw [if_pos hg]
          exact handleRateLimit_inv st n msg (some 600) now hInv
        · rw [if_neg hg]
          exact handleRateLimit_inv st n msg none now hInv
      · rw [if_neg hr]
        exact recordFailure_inv st n msg now hInv
  · intro n msg now hmem hcross
    unfold recordFailure
    rw [if_pos hmem]
    dsimp only
    rw [if_pos hcross]
    exact fupd_self _ _ _
  · intro n now hdis
    rw [reconcileGB_eq, reconcileNext_eq]
    exact ⟨hdis, hdis⟩

/-- Witness for C5 at a concrete ledger. -/
theorem C5_threshold_disable_invariant_witness :
    FailureInv st3 ∧ FailureInv (recordFailure st3 "gemini" "erro" 5) :=
  ⟨by decide, (C5_threshold_disable_invariant st3 (by decide)).1 "gemini" "erro" 5⟩

/-- Claim C4: fallback selection filters the registry to providers that are
available, enabled, under the failure threshold and not excluded, sorts
ascending by `(priority, consecutiveFailures)` and returns the head (the
stable sort keeps registry order among equal keys), or none exactly when
the filtered list is empty; and the primary selector `get_best_provider`
also never returns a disabled or over-threshold provider. -/
theorem C4_selection_contract (st : AIState) :
    (∀ ex now n, (getNextAvailableProvider st ex now).2 = some n →
      ∃ p rest, sortCands st (eligibleNext st ex) = (n, p) :: rest ∧
        (n, p) ∈ eligibleNext st ex ∧
        n ∉ ex ∧ p.available = true ∧ st.provider_enabled n = true ∧
        st.provider_failures n < max_failures ∧
        ∀ mq ∈ eligibleNext st ex,
          tupLe (p.priority, st.provider_failures n)
            (mq.2.priority, st.provider_failures mq.1) = true) ∧
    (∀ ex now, ((getNextAvailableProvider st ex now).2 = none ↔
      eligibleNext st ex = [])) ∧
    (∀ now n, (getBestProvider st now).2 = some n →
      (getBestProvider st now).1.provider_enabled n = true ∧
      (getBestProvider st now).1.provider_failures n < max_failures) := by
  refine ⟨?_, ?_, ?_⟩
  · intro ex now n h
    simp only [getNextAvailableProvider, reconcileNext_eq] at h
    cases hs : sortCands st (eligibleNext st ex) with
    | nil => rw [hs] at h; exact absurd h (by simp)
    | cons x rest =>
      rw [hs] at h
      dsimp only at h
      have hxn : x.1 = n := Option.some.inj h
      subst hxn
      have hmem : x ∈ eligibleNext st ex := sortByKeyList_head_mem _ _ _ _ hs
      have hfil := List.mem_filter.mp hmem
      have hp := hfil.2
      simp only [Bool.and_eq_true, Bool.not_eq_true', decide_eq_false_iff_not,
        decide_eq_true_eq] at hp
      exact ⟨x.2, rest, rfl, hmem, hp.1.1.1, hp.1.1.2, hp.1.2, hp.2,
        fun mq hmq => sortByKeyList_head_min _ _ _ _ hs mq hmq⟩
  · intro ex now
    simp only [getNextAvailableProvider, reconcileNext_eq]
    cases hs : sortCands st (eligibleNext st ex) with
    | nil =>
      have he : eligibleNext st ex = [] := (sortByKeyList_eq_nil_iff _ _).mp hs
      simp [he]
    | cons x rest =>
      have hne : eligibleNext st ex ≠ [] := by
        intro hc
        rw [hc] at hs
        simp [sortCands, sortByKeyList] at hs
      dsimp only
      simp [hne]
  · intro now n h
    simp only [getBestProvider, reconcileGB_eq] at h ⊢
    by_cases he : (eligibleGB st).isEmpty = true
    · rw [if_pos he] at h ⊢
      cases hs : sortCands (globalReset st) ((globalReset st).providers.filter fun np =>
          np.2.available && (globalReset st).provider_enabled np.1) with
      | nil => rw [hs] at h; simp at h
      | cons x rest =>
        rw [hs] at h
        dsimp only at h ⊢
        have hxn : x.1 = n := Option.some.inj h
        subst hxn
        have hmem := sortByKeyList_head_mem _ _ _ _ hs
        have hfil := List.mem_filter.mp hmem
        have hp := hfil.2
        simp only [Bool.and_eq_true] at hp
        have hmem' : x ∈ st.providers := by
          rw [← globalReset_providers st]; exact hfil.1
        have hfz := globalReset_avail_failures st x hmem' hp.1
        constructor
        · exact hp.2
        · rw [hfz]
          simp [max_failures]
    · rw [if_neg he] at h ⊢
      cases hs : sortCands st (eligibleGB st) with
      | nil => rw [hs] at h; simp at h
      | cons x rest =>
        rw [hs] at h
        dsimp only at h ⊢
        have hxn : x.1 = n := Option.some.inj h
        subst hxn
        have hmem := sortByKeyList_head_mem _ _ _ _ hs
        have hfil := List.mem_filter.mp hmem
        have hp := hfil.2
        simp only [Bool.and_eq_true, decide_eq_true_eq] at hp
        constructor
        · exact hp.1.2
        · exact hp.2

/-- Witness for C4 at a concrete ledger and exclusion set. -/
theorem C4_selection_contract_witness :
    (getNextAvailableProvider st3 ["gemini"] 0).2 = some "groq" ∧
    (∃ p rest, sortCands st3 (eligibleNext st3 ["gemini"]) = ("groq", p) :: rest ∧
      ("groq", p) ∈ eligibleNext st3 ["gemini"] ∧
      "groq" ∉ ["gemini"] ∧ p.available = true ∧
      st3.provider_enabled "groq" = true ∧
      st3.provider_failures "groq" < max_failures ∧
      ∀ mq ∈ eligibleNext st3 ["gemini"],
        tupLe (p.priority, st3.provider_failures "groq")
          (mq.2.priority, st3.provider_failures mq.1) = true) :=
  ⟨by decide, (C4_selection_contract st3).1 ["gemini"] 0 "groq" (by decide)⟩

/-- Claim C7: when the reconciled candidate set is empty, `get_best_provider`
resets `consecutiveFailures` (never `error_count`: the provider records are
untouched) and re-enables every available provider, and whenever at least
one provider is available it returns some provider rather than refusing.
The hypothesis characterises reachable ledgers: a disabled registered
provider has a positive failure count. -/
theorem C7_global_exhaustion_fallback (st : AIState) (now : Nat)
    (hre : ∀ np ∈ st.providers,
      st.provider_enabled np.1 = false → 0 < st.provider_failures np.1) :
    (getBestProvider st now).1.providers = st.providers ∧
    (eligibleGB st = [] →
      ∀ np ∈ st.providers, np.2.available = true →
        (getBestProvider st now).1.provider_failures np.1 = 0 ∧
        (getBestProvider st now).1.provider_enabled np.1 = true) ∧
    ((∃ np ∈ st.providers, np.2.available = true) →
      ((getBestProvider st now).2).isSome = true) := by
  simp only [getBestProvider, reconcileGB_eq]
  by_cases he : (eligibleGB st).isEmpty = true
  · rw [if_pos he]
    cases hs : sortCands (globalReset st) ((globalReset st).providers.filter fun np =>
        np.2.available && (globalReset st).provider_enabled np.1) with
    | nil =>
      refine ⟨globalReset_providers st, ?_, ?_⟩
      · intro _ np hmem hav
        exact globalReset_avail st hre np hmem hav
      · rintro ⟨np, hmem, hav⟩
        exfalso
        have hen := (globalReset_avail st hre np hmem hav).2
        have hmem2 : np ∈ (globalReset st).providers := by
          rw [globalReset_providers]; exact hmem
        have hfil : np ∈ (globalReset st).providers.filter (fun np =>
            np.2.available && (globalReset st).provider_enabled np.1) :=
          List.mem_filter.mpr ⟨hmem2, by rw [hav, hen]; rfl⟩
        have hnil := (sortByKeyList_eq_nil_iff _ _).mp hs
        rw [hnil] at hfil
        exact absurd hfil (List.not_mem_nil np)
    | cons x rest =>
      refine ⟨globalReset_providers st, ?_, fun _ => rfl⟩
      intro _ np hmem hav
      exact globalReset_avail st hre np hmem hav
  · rw [if_neg he]
    cases hs : sortCands st (eligibleGB st) with
    | nil =>
      exfalso
      have hnil := (sortByKeyList_eq_nil_iff _ _).mp hs
      exact he (by rw [hnil]; rfl)
    | cons x rest =>
      refine ⟨rfl, ?_, fun _ => rfl⟩
      intro hemp
      exact absurd (by rw [hemp]; rfl : (eligibleGB st).isEmpty = true) he

/-- Witness for C7 at a concrete ledger with a disabled provider. -/
theorem C7_global_exhaustion_fallback_witness :
    (∃ np ∈ stCooldown.providers, np.2.available = true) ∧
    ((getBestProvider stCooldown 100000).2).isSome = true :=
  ⟨by decide,
   (C7_global_exhaustion_fallback stCooldown 100000 (by decide)).2.2 (by decide)⟩

end AIM
